import Mathlib

/-!
# Verification of the single-object compression pipeline

Shallow embedding of the Go Lambda handler that downloads an S3 object,
repackages it into a `.7z` container (copy mode) via the `7za` binary,
uploads the result, optionally deletes the source, and sends the result
to an SQS queue.  The embedding follows the full-pipeline variant of the
source (the file defining `ProcessUuid`, region defaulting, deletion and
queue notification); the reduced variant without queue support agrees on
all pure helpers (`validateRequest`, `buildTempPaths`, `replaceExtension`).

External effects (S3, SQS, filesystem, subprocess) are modelled by an
explicit environment of outcome functions, and the handler additionally
returns the list of effects it performed, in order.
-/

namespace FileCompress

/-! ## Constants (from the source `const` block) -/

def SevenZipCmd : String := "/var/task/7za"

def SevenZipFormatFlag : String := "-t7z"

def SevenZipCopyFlag : String := "-m0=Copy"

def TempDir : String := "/tmp"

def CompressExtension : String := ".7z"

def BufferSize : Nat := 4 * 1024 * 1024

/-! ## Go standard library: `strings` and `path/filepath`

Go strings are byte strings; all constants involved (`/`, `.`, `.7z`,
`/tmp`) are ASCII, so the embedding works at the character level. -/

/-- Go `strings.HasSuffix(s, suffix)`. -/
def stringsHasSuffix (s suffix : String) : Bool :=
  suffix.data.isSuffixOf s.data

/-- Go `strings.TrimSuffix(s, suffix)`: removes the suffix when present. -/
def stringsTrimSuffix (s suffix : String) : String :=
  if stringsHasSuffix s suffix then
    ⟨s.data.take (s.data.length - suffix.data.length)⟩
  else s

/-- Backward scan of `filepath.Ext`: the input is the reversed character
list of the path, `acc` holds the characters already passed (in forward
order).  Stops at a path separator with no extension; at a dot it returns
the suffix of the path starting at that dot. -/
def filepathExtAux : List Char → List Char → Option (List Char)
  | [], _ => none
  | c :: rest, acc =>
    if c = '/' then none
    else if c = '.' then some ('.' :: acc)
    else filepathExtAux rest (c :: acc)

/-- Go `filepath.Ext(path)`: the suffix beginning at the final dot in the
final path element; empty if there is no dot. -/
def filepathExt (path : String) : String :=
  match filepathExtAux path.data.reverse [] with
  | none => ""
  | some e => ⟨e⟩

/-- Go `filepath.Base(path)`: empty path gives `"."`; otherwise trailing
separators are removed, then everything up to and including the last
separator; an all-separator path gives `"/"`. -/
def filepathBase (path : String) : String :=
  if path = "" then "."
  else
    let revStripped := path.data.reverse.dropWhile (fun c => c = '/')
    let name := (revStripped.takeWhile (fun c => ¬ c = '/')).reverse
    if name = [] then "/" else ⟨name⟩

/-- Index search for the `..` backtracking step of `filepath.Clean`:
starting from `w`, decrement while `w > dotdot` and the character of
`out` at position `w` is not a separator (the Go loop
`for out.w > dotdot && !os.IsPathSeparator(out.index(out.w)) { out.w-- }`
after the initial `out.w--`). -/
def btStop (out : List Char) (dotdot : Nat) : Nat → Nat
  | 0 => 0
  | w + 1 =>
    if w + 1 ≤ dotdot then w + 1
    else if out.get? (w + 1) = some '/' then w + 1
    else btStop out dotdot w

/-- The `..` handling of `filepath.Clean`: backtrack over the previous
component when possible, otherwise (for relative paths) append `..` and
advance `dotdot`; returns the new output buffer and `dotdot`. -/
def dotdotUpdate (rooted : Bool) (out : List Char) (dotdot : Nat) :
    List Char × Nat :=
  if dotdot < out.length then
    (out.take (btStop out dotdot (out.length - 1)), dotdot)
  else if rooted = false then
    let out2 := (if out.length ≠ 0 then out ++ ['/'] else out) ++ ['.', '.']
    (out2, out2.length)
  else (out, dotdot)

/-- Go's separator guard before writing a component:
`rooted && out.w != 1 || !rooted && out.w != 0`. -/
def sepNeeded (rooted : Bool) (w : Nat) : Bool :=
  if rooted then decide (w ≠ 1) else decide (w ≠ 0)

/-- Main loop of `filepath.Clean` (unix separators).  `inComp = true`
means the loop is inside copying a normal component (the inner `for` of
the Go code); `inComp = false` means it is at a component boundary.
Where the Go code leaves a separator to be skipped by the next
iteration (after a `.` or `..` component), this translation consumes it
in the same step, which is equivalent because the boundary separator
case only skips it. -/
def cleanLoop (rooted : Bool) : List Char → Bool → List Char → Nat → List Char
  | out, _, [], _ => out
  | out, true, '/' :: rest, dd => cleanLoop rooted out false rest dd
  | out, true, c :: rest, dd => cleanLoop rooted (out ++ [c]) true rest dd
  | out, false, '/' :: rest, dd => cleanLoop rooted out false rest dd
  | out, false, ['.'], _ => out
  | out, false, '.' :: '/' :: rest1, dd => cleanLoop rooted out false rest1 dd
  | out, false, '.' :: '.' :: [], dd => (dotdotUpdate rooted out dd).1
  | out, false, '.' :: '.' :: '/' :: rest2, dd =>
    let od := dotdotUpdate rooted out dd
    cleanLoop rooted od.1 false rest2 od.2
  | out, false, c :: rest, dd =>
    cleanLoop rooted
      ((if sepNeeded rooted out.length then out ++ ['/'] else out) ++ [c])
      true rest dd

/-- Go `filepath.Clean(path)` for unix paths. -/
def filepathClean (path : String) : String :=
  if path = "" then "."
  else
    let chars := path.data
    let rooted := chars.head? = some '/'
    let out :=
      if rooted then cleanLoop true ['/'] false chars 1
      else cleanLoop false [] false chars 0
    if out = [] then "." else ⟨out⟩

/-- Go `filepath.Join(a, b)`: skips empty elements, joins with `/`, and
cleans the result. -/
def filepathJoin (a b : String) : String :=
  if a ≠ "" then filepathClean (a ++ "/" ++ b)
  else if b ≠ "" then filepathClean b
  else ""

/-! ## Pure helpers of the pipeline (from the source) -/

/-- Go `replaceExtension(key, newExtension)`: if the key has no
extension, append the new one, otherwise replace the existing one. -/
def replaceExtension (key newExtension : String) : String :=
  let ext := filepathExt key
  if ext = "" then key ++ newExtension
  else ⟨key.data.take (key.data.length - ext.data.length)⟩ ++ newExtension

/-- Go `buildTempPaths(originKey)`: the `/tmp` input and output paths
derived from the key's base name. -/
def buildTempPaths (originKey : String) : String × String :=
  let fileName := filepathBase originKey
  let base := stringsTrimSuffix fileName (filepathExt fileName)
  let inputPath := filepathJoin TempDir fileName
  let outputPath := filepathJoin TempDir (base ++ CompressExtension)
  (inputPath, outputPath)

/-- Go `defaultIfEmpty(value, def)`. -/
def defaultIfEmpty (value d : String) : String :=
  if value = "" then d else value

/-! ## Data model (from the source structs) -/

/-- The Lambda request struct `FileCompressionForm`. -/
structure FileCompressionForm where
  ProcessUuid : String
  OriginRegion : String
  OriginBucket : String
  OriginKey : String
  TargetRegion : String
  TargetBucket : String
  TargetKey : String
  DeleteOriginal : Bool
  QueueRegion : String
  QueueUrl : String
deriving DecidableEq, Repr

/-- The result struct `CompressionResultData` (fields in the source's
declaration order). -/
structure CompressionResultData where
  Result : String
  Message : String
  ProcessUuid : String
  Region : String
  Bucket : String
  Key : String
deriving DecidableEq, Repr

/-- Outcome of `os.Remove`, distinguishing the `os.IsNotExist` case the
cleanup code inspects. -/
inductive RemoveResult where
  | ok
  | notExist
  | failed (msg : String)
deriving DecidableEq, Repr

/-- Environment of external collaborators: each field gives the outcome
of one external operation (AWS SDK call, filesystem call, or the `7za`
subprocess).  Region arguments select the region-scoped client a call
goes through. -/
structure Env where
  /-- Go `os.Getenv("AWS_REGION")` — the invocation's own region. -/
  lambdaRegion : String
  /-- Outcome of `os.Create(destPath)` in `downloadFromS3`. -/
  createFile : String → Except String Unit
  /-- Outcome of `GetObject` on the client of the given region, with bucket and key. -/
  getObject : String → String → String → Except String Unit
  /-- Outcome of `io.Copy` of the object body (region, bucket, key, destPath) giving
  the bytes written. -/
  copyBody : String → String → String → String → Except String Int
  /-- Whether `os.Stat(SevenZipCmd)` finds the `7za` binary. -/
  binaryExists : Bool
  /-- Running the `7za` command with the given argv: exit status and
  captured combined standard output/error. -/
  runTool : List String → Nat × String
  /-- Outcome of `os.Open(sourcePath)` in `uploadToS3`. -/
  openFile : String → Except String Unit
  /-- Outcome of `f.Stat()` giving the file size. -/
  statSize : String → Except String Int
  /-- Outcome of `PutObject` (region, bucket, key, sourcePath). -/
  putObject : String → String → String → String → Except String Unit
  /-- Outcome of `DeleteObject` (region, bucket, key). -/
  deleteObject : String → String → String → Except String Unit
  /-- Outcome of `SendMessage` (queue region, queue URL, message body). -/
  sendMessage : String → String → String → Except String Unit
  /-- Outcome of `os.Remove(path)` in `cleanupTemp`. -/
  removeFile : String → RemoveResult

deriving instance DecidableEq for Except

/-- Observable external actions of one invocation, in order. -/
inductive Effect where
  | download (region bucket key destPath : String)
  | runTool (args : List String)
  | upload (region bucket key srcPath : String)
  | deleteObj (region bucket key : String) (outcome : Except String Unit)
  | sendMsg (queueRegion queueUrl body : String)
  | cleanup (paths : List String) (warnings : List String)
deriving DecidableEq, Repr

/-! ## Pipeline stages (from the source functions) -/

/-- Go `validateRequest(event)`: origin bucket and key must be present
and the key must not already carry the archive extension.  A pure check:
it takes no environment and performs no effect. -/
def validateRequest (event : FileCompressionForm) : Except String Unit :=
  if event.OriginBucket = "" ∨ event.OriginKey = "" then
    Except.error "origin bucket and key required"
  else if stringsHasSuffix event.OriginKey CompressExtension then
    Except.error "file is already compressed"
  else Except.ok ()

/-- Go `buildErrorResult(event, err)`: the `FAILED` result carrying the
error text and the original source coordinates. -/
def buildErrorResult (event : FileCompressionForm) (e : String) :
    CompressionResultData :=
  { Result := "FAILED", Message := e, ProcessUuid := event.ProcessUuid
    Region := event.OriginRegion, Bucket := event.OriginBucket
    Key := event.OriginKey }

/-- Go `downloadFromS3`: create the temp file, fetch the object, copy the
body; each sub-step failure is wrapped with its own message (`%w`
rendering as `prefix ++ ": " ++ cause`). -/
def downloadFromS3 (env : Env) (region bucket key destPath : String) :
    Except String Int :=
  match env.createFile destPath with
  | Except.error e => Except.error ("failed to create temp file: " ++ e)
  | Except.ok _ =>
    match env.getObject region bucket key with
    | Except.error e => Except.error ("failed to get S3 object: " ++ e)
    | Except.ok _ =>
      match env.copyBody region bucket key destPath with
      | Except.error e => Except.error ("failed to copy S3 data: " ++ e)
      | Except.ok n => Except.ok n

/-- Argument vector of the `7za` invocation (`cmd.Args`). -/
def sevenZipArgs (inputPath outputPath : String) : List String :=
  [SevenZipCmd, "a", SevenZipFormatFlag, SevenZipCopyFlag, outputPath, inputPath]

/-- Go `compressFile`: if the binary is missing (`os.Stat` +
`os.IsNotExist`) fail with a distinct message before any execution;
otherwise run `7za`; a non-zero exit status yields
`fmt.Errorf("7za error: %w", err)` whose text is the exit error's
description — the captured combined output is logged, not placed in the
returned error.  Also returns the commands executed. -/
def compressFile (env : Env) (inputPath outputPath : String) :
    Except String Unit × List Effect :=
  if env.binaryExists = false then
    (Except.error "7za binary not found", [])
  else
    let args := sevenZipArgs inputPath outputPath
    let r := env.runTool args
    if r.1 = 0 then (Except.ok (), [Effect.runTool args])
    else (Except.error ("7za error: exit status " ++ toString r.1),
          [Effect.runTool args])

/-- Go `uploadToS3`: open the file, read its size, put the object;
failures wrapped per sub-step; returns the file size. -/
def uploadToS3 (env : Env) (region bucket key sourcePath : String) :
    Except String Int :=
  match env.openFile sourcePath with
  | Except.error e => Except.error ("failed to open source file: " ++ e)
  | Except.ok _ =>
    match env.statSize sourcePath with
    | Except.error e => Except.error ("failed to get file info: " ++ e)
    | Except.ok size =>
      match env.putObject region bucket key sourcePath with
      | Except.error e => Except.error ("failed to put S3 object: " ++ e)
      | Except.ok _ => Except.ok size

/-- Go `deleteFromS3`: a bare `DeleteObject`, error returned unchanged. -/
def deleteFromS3 (env : Env) (region bucket key : String) :
    Except String Unit :=
  env.deleteObject region bucket key

/-- String literal in a JSON document.  Models `encoding/json` quoting
for the plain ASCII field values the pipeline produces (quote and
backslash escaped; Go's additional HTML/control escaping is not needed
for any value this development evaluates). -/
def jsonQuote (s : String) : String :=
  "\"" ++
    ⟨s.data.foldr
      (fun c acc =>
        if c = '"' then '\\' :: '"' :: acc
        else if c = '\\' then '\\' :: '\\' :: acc
        else c :: acc) []⟩
  ++ "\""

/-- Rendering of `json.Marshal` of `CompressionResultData`: fields in struct order
with their `json:"..."` tags. -/
def jsonOfResult (r : CompressionResultData) : String :=
  "\x7b\"result\":" ++ jsonQuote r.Result ++
  ",\"message\":" ++ jsonQuote r.Message ++
  ",\"processUuid\":" ++ jsonQuote r.ProcessUuid ++
  ",\"region\":" ++ jsonQuote r.Region ++
  ",\"bucket\":" ++ jsonQuote r.Bucket ++
  ",\"key\":" ++ jsonQuote r.Key ++ "\x7d"

/-- Go `sendResultToQueue(region, queueUrl, result)`: marshal the result
(which cannot fail for this flat string struct) and send it as one
message; the send error is returned unchanged.  Note the source performs
the send unconditionally — there is no empty-queue-URL check. -/
def sendResultToQueue (env : Env) (region queueUrl : String)
    (result : CompressionResultData) : Except String Unit × List Effect :=
  let body := jsonOfResult result
  (env.sendMessage region queueUrl body, [Effect.sendMsg region queueUrl body])

/-- Go `cleanupTemp(paths...)`: attempt `os.Remove` on each path; a
failure other than not-exist produces a warning log line and nothing
else. -/
def cleanupTemp (env : Env) (paths : List String) : List String :=
  paths.filterMap fun p =>
    match env.removeFile p with
    | RemoveResult.failed m =>
      some ("[WARN] Failed to delete temp file " ++ p ++ ": " ++ m)
    | _ => none

/-- The defaulting step of the handler (lines computing `originRegion`,
`targetRegion`, `targetBucket`, `targetKey`): origin region falls back
to the Lambda region, target region to the origin region, target bucket
to the origin bucket, target key to the origin key with its extension
replaced by the archive extension. -/
def effectiveRequest (env : Env) (event : FileCompressionForm) :
    String × String × String × String :=
  let originRegion := defaultIfEmpty event.OriginRegion env.lambdaRegion
  let targetRegion := defaultIfEmpty event.TargetRegion originRegion
  let targetBucket := defaultIfEmpty event.TargetBucket event.OriginBucket
  let targetKey :=
    defaultIfEmpty event.TargetKey
      (replaceExtension event.OriginKey CompressExtension)
  (originRegion, targetRegion, targetBucket, targetKey)

/-- Go `Handler(ctx, event)`: the staged pipeline.  Returns the pair the
Go function returns — the result struct and the error (`none` on
success) — together with the ordered effects.  The deferred
`cleanupTemp` runs on every exit path reached after it is installed,
i.e. after validation succeeds; the validation-failure return happens
before the `defer`, so that path carries no cleanup effect. -/
def Handler (env : Env) (event : FileCompressionForm) :
    (CompressionResultData × Option String) × List Effect :=
  match validateRequest event with
  | Except.error e => ((buildErrorResult event e, some e), [])
  | Except.ok _ =>
    let eff := effectiveRequest env event
    let originRegion := eff.1
    let targetRegion := eff.2.1
    let targetBucket := eff.2.2.1
    let targetKey := eff.2.2.2
    let paths := buildTempPaths event.OriginKey
    let inputPath := paths.1
    let outputPath := paths.2
    let cleanupEff : Effect :=
      Effect.cleanup [inputPath, outputPath]
        (cleanupTemp env [inputPath, outputPath])
    let dlEff : Effect :=
      Effect.download originRegion event.OriginBucket event.OriginKey inputPath
    match downloadFromS3 env originRegion event.OriginBucket event.OriginKey
        inputPath with
    | Except.error e =>
      ((buildErrorResult event e, some e), [dlEff] ++ [cleanupEff])
    | Except.ok _ =>
      let comp := compressFile env inputPath outputPath
      match comp.1 with
      | Except.error e =>
        ((buildErrorResult event e, some e), [dlEff] ++ comp.2 ++ [cleanupEff])
      | Except.ok _ =>
        let upEff : Effect :=
          Effect.upload targetRegion targetBucket targetKey outputPath
        match uploadToS3 env targetRegion targetBucket targetKey outputPath with
        | Except.error e =>
          ((buildErrorResult event e, some e),
            [dlEff] ++ comp.2 ++ [upEff] ++ [cleanupEff])
        | Except.ok _ =>
          let delEffs : List Effect :=
            if event.DeleteOriginal then
              [Effect.deleteObj targetRegion event.OriginBucket event.OriginKey
                (deleteFromS3 env targetRegion event.OriginBucket
                  event.OriginKey)]
            else []
          let result : CompressionResultData :=
            { Result := "SUCCEED", Message := "Compression succeeded"
              ProcessUuid := event.ProcessUuid, Region := targetRegion
              Bucket := targetBucket, Key := targetKey }
          let send := sendResultToQueue env event.QueueRegion event.QueueUrl
            result
          match send.1 with
          | Except.error e =>
            ((buildErrorResult event e, some e),
              [dlEff] ++ comp.2 ++ [upEff] ++ delEffs ++ send.2 ++ [cleanupEff])
          | Except.ok _ =>
            ((result, none),
              [dlEff] ++ comp.2 ++ [upEff] ++ delEffs ++ send.2 ++ [cleanupEff])

/-! ## Concrete environments used by witnesses and counterexamples -/

/-- An environment where every external operation succeeds. -/
def okEnv : Env where
  lambdaRegion := "eu-west-1"
  createFile := fun _ => Except.ok ()
  getObject := fun _ _ _ => Except.ok ()
  copyBody := fun _ _ _ _ => Except.ok 42
  binaryExists := true
  runTool := fun _ => (0, "Everything is Ok")
  openFile := fun _ => Except.ok ()
  statSize := fun _ => Except.ok 17
  putObject := fun _ _ _ _ => Except.ok ()
  deleteObject := fun _ _ _ => Except.ok ()
  sendMessage := fun _ _ _ => Except.ok ()
  removeFile := fun _ => RemoveResult.ok

/-- Like `okEnv` but `SendMessage` fails on an empty queue URL (as the
real SQS endpoint does). -/
def sendFailEnv : Env :=
  { okEnv with
    sendMessage := fun _ queueUrl _ =>
      if queueUrl = "" then Except.error "invalid queue url" else Except.ok () }

/-- A request with origin and target fully specified. -/
def fullEvent : FileCompressionForm where
  ProcessUuid := "p-1"
  OriginRegion := "us-east-1"
  OriginBucket := "src-bucket"
  OriginKey := "dir/report.pdf"
  TargetRegion := "us-west-2"
  TargetBucket := "dst-bucket"
  TargetKey := "out/report.7z"
  DeleteOriginal := false
  QueueRegion := "us-east-1"
  QueueUrl := "https://sqs/q"

/-- A request with only the required fields set (everything defaulted,
no queue). -/
def minimalEvent : FileCompressionForm where
  ProcessUuid := "p-2"
  OriginRegion := ""
  OriginBucket := "b"
  OriginKey := "x.bin"
  TargetRegion := ""
  TargetBucket := ""
  TargetKey := ""
  DeleteOriginal := false
  QueueRegion := ""
  QueueUrl := ""

/-- A request missing the origin bucket (fails validation). -/
def badEvent : FileCompressionForm :=
  { minimalEvent with ProcessUuid := "p-3", OriginBucket := "" }

/-- Like `okEnv` but the `7za` run exits with status 2 and diagnostic
output. -/
def toolFailEnv : Env :=
  { okEnv with runTool := fun _ => (2, "DIAG-OUTPUT-42") }

/-- Occurrence of `sub` as a contiguous segment of `l`. -/
def containsSeg (sub : List Char) : List Char → Bool
  | [] => sub.isEmpty
  | c :: rest => sub.isPrefixOf (c :: rest) || containsSeg sub rest

/-- Substring test (used to state that an error message does or does not
carry a piece of text). -/
def strContains (s sub : String) : Bool :=
  containsSeg sub.data s.data

/-- The success result the handler builds after a successful upload. -/
def successResult (env : Env) (event : FileCompressionForm) :
    CompressionResultData :=
  { Result := "SUCCEED", Message := "Compression succeeded"
    ProcessUuid := event.ProcessUuid
    Region := (effectiveRequest env event).2.1
    Bucket := (effectiveRequest env event).2.2.1
    Key := (effectiveRequest env event).2.2.2 }

/-- The failure contract of the handler: a `FAILED` result whose message
is the (non-empty) error text, carrying the original source coordinates
and the echoed process identifier, returned together with the explicit
error value. -/
def failedOutput (env : Env) (event : FileCompressionForm) (e : String) :
    Prop :=
  (Handler env event).1.1.Result = "FAILED" ∧
  (Handler env event).1.1.Message = e ∧ e ≠ "" ∧
  (Handler env event).1.1.Region = event.OriginRegion ∧
  (Handler env event).1.1.Bucket = event.OriginBucket ∧
  (Handler env event).1.1.Key = event.OriginKey ∧
  (Handler env event).1.1.ProcessUuid = event.ProcessUuid ∧
  (Handler env event).1.2 = some e

/-! ## Helper lemmas -/

theorem str_append_ne_empty (s t : String) (h : s.data ≠ []) : s ++ t ≠ "" := by
  intro heq
  have h3 : (s ++ t).data = s.data ++ t.data := by cases s; cases t; rfl
  rw [heq] at h3
  exact h (List.append_eq_nil.mp h3.symm).1

theorem validateRequest_error_msg {event : FileCompressionForm} {e : String}
    (h : validateRequest event = Except.error e) : e ≠ "" := by
  unfold validateRequest at h
  split at h
  · simp only [Except.error.injEq] at h
    subst h
    decide
  · split at h
    · simp only [Except.error.injEq] at h
      subst h
      decide
    · simp at h

theorem downloadFromS3_error_msg {env : Env} {r b k d e : String}
    (h : downloadFromS3 env r b k d = Except.error e) : e ≠ "" := by
  unfold downloadFromS3 at h
  split at h
  · simp only [Except.error.injEq] at h
    subst h
    exact str_append_ne_empty _ _ (by decide)
  · split at h
    · simp only [Except.error.injEq] at h
      subst h
      exact str_append_ne_empty _ _ (by decide)
    · split at h
      · simp only [Except.error.injEq] at h
        subst h
        exact str_append_ne_empty _ _ (by decide)
      · simp at h

theorem compressFile_error_msg {env : Env} {i o e : String}
    (h : (compressFile env i o).1 = Except.error e) : e ≠ "" := by
  unfold compressFile at h
  split at h
  · simp only [Except.error.injEq] at h
    subst h
    decide
  · simp only at h
    split at h
    · simp at h
    · simp only [Except.error.injEq] at h
      subst h
      exact str_append_ne_empty _ _ (by decide)

theorem uploadToS3_error_msg {env : Env} {r b k s e : String}
    (h : uploadToS3 env r b k s = Except.error e) : e ≠ "" := by
  unfold uploadToS3 at h
  split at h
  · simp only [Except.error.injEq] at h
    subst h
    exact str_append_ne_empty _ _ (by decide)
  · split at h
    · simp only [Except.error.injEq] at h
      subst h
      exact str_append_ne_empty _ _ (by decide)
    · split at h
      · simp only [Except.error.injEq] at h
        subst h
        exact str_append_ne_empty _ _ (by decide)
      · simp at h

/-! ## Claim theorems -/

/-- C4: for every request that passes validation, the effective request
defaults the target region to the (invocation-region-defaulted) origin
region, the target bucket to the origin bucket and the target key to the
origin key with its extension replaced by `.7z`, while non-empty
supplied fields are used unchanged. -/
theorem effectiveRequest_defaults (env : Env) (event : FileCompressionForm)
    (_hval : validateRequest event = Except.ok ()) :
    ((event.OriginRegion = "" →
        (effectiveRequest env event).1 = env.lambdaRegion) ∧
      (event.OriginRegion ≠ "" →
        (effectiveRequest env event).1 = event.OriginRegion)) ∧
    ((event.TargetRegion = "" →
        (effectiveRequest env event).2.1 = (effectiveRequest env event).1) ∧
      (event.TargetRegion ≠ "" →
        (effectiveRequest env event).2.1 = event.TargetRegion)) ∧
    ((event.TargetBucket = "" →
        (effectiveRequest env event).2.2.1 = event.OriginBucket) ∧
      (event.TargetBucket ≠ "" →
        (effectiveRequest env event).2.2.1 = event.TargetBucket)) ∧
    ((event.TargetKey = "" →
        (effectiveRequest env event).2.2.2 =
          replaceExtension event.OriginKey CompressExtension) ∧
      (event.TargetKey ≠ "" →
        (effectiveRequest env event).2.2.2 = event.TargetKey)) := by
  unfold effectiveRequest defaultIfEmpty
  refine ⟨⟨?_, ?_⟩, ⟨?_, ?_⟩, ⟨?_, ?_⟩, ⟨?_, ?_⟩⟩ <;> intro h <;> simp [h]

/-- Witness for C4 at the minimal request: the defaults produce bucket
`b`, key `x.7z` and the invocation's region. -/
theorem effectiveRequest_defaults_witness :
    validateRequest minimalEvent = Except.ok () ∧
      (effectiveRequest okEnv minimalEvent).1 = "eu-west-1" ∧
      (effectiveRequest okEnv minimalEvent).2.1 = "eu-west-1" ∧
      (effectiveRequest okEnv minimalEvent).2.2.1 = "b" ∧
      (effectiveRequest okEnv minimalEvent).2.2.2 = "x.7z" := by
  have h := effectiveRequest_defaults okEnv minimalEvent (by decide)
  exact ⟨by decide, (h.1.1 (by decide)).trans (by decide),
    ((h.2.1.1 (by decide)).trans ((h.1.1 (by decide)).trans (by decide))),
    (h.2.2.1.1 (by decide)).trans (by decide),
    (h.2.2.2.1 (by decide)).trans (by decide)⟩

/-- C6: validation succeeds exactly when the origin bucket and key are
non-empty and the key does not end with the archive extension; on a
validation failure the handler returns with an empty effect trace, so no
download or other I/O is attempted (`validateRequest` itself is a pure
function of the request and performs no effect). -/
theorem validateRequest_spec (env : Env) (event : FileCompressionForm) :
    ((validateRequest event = Except.ok ()) ↔
      (event.OriginBucket ≠ "" ∧ event.OriginKey ≠ "" ∧
        stringsHasSuffix event.OriginKey CompressExtension = false)) ∧
    (∀ e, validateRequest event = Except.error e →
      (Handler env event).2 = []) := by
  constructor
  · constructor
    · intro h
      unfold validateRequest at h
      by_cases h1 : event.OriginBucket = "" ∨ event.OriginKey = ""
      · simp [h1] at h
      · by_cases h2 : stringsHasSuffix event.OriginKey CompressExtension
        · simp [h1, h2] at h
        · push_neg at h1
          exact ⟨h1.1, h1.2, by simpa using h2⟩
    · rintro ⟨hb, hk, hs⟩
      unfold validateRequest
      simp [hb, hk, hs]
  · intro e he
    simp [Handler, he]

/-- Witness for C6: the request with an empty origin bucket fails
validation and produces no effects; the minimal valid request passes. -/
theorem validateRequest_spec_witness :
    ((validateRequest minimalEvent = Except.ok ()) ∧
      (Handler okEnv badEvent).2 = []) := by
  refine ⟨?_, ?_⟩
  · exact (validateRequest_spec okEnv minimalEvent).1.mpr
      ⟨by decide, by decide, by decide⟩
  · exact (validateRequest_spec okEnv badEvent).2
      "origin bucket and key required" (by decide)

/-- C2: whenever a stage from validation through upload fails, the
handler returns the `FAILED` result built by `buildErrorResult`: a
non-empty message equal to the underlying error's description, the
original source coordinates, the echoed process identifier, and the
explicit error value alongside. -/
theorem handler_failure_contract (env : Env) (event : FileCompressionForm) :
    (∀ e, validateRequest event = Except.error e → failedOutput env event e) ∧
    (validateRequest event = Except.ok () →
      (∀ e, downloadFromS3 env (effectiveRequest env event).1
          event.OriginBucket event.OriginKey
          (buildTempPaths event.OriginKey).1 = Except.error e →
        failedOutput env event e) ∧
      (∀ n, downloadFromS3 env (effectiveRequest env event).1
          event.OriginBucket event.OriginKey
          (buildTempPaths event.OriginKey).1 = Except.ok n →
        (∀ e, (compressFile env (buildTempPaths event.OriginKey).1
            (buildTempPaths event.OriginKey).2).1 = Except.error e →
          failedOutput env event e) ∧
        (∀ u, (compressFile env (buildTempPaths event.OriginKey).1
            (buildTempPaths event.OriginKey).2).1 = Except.ok u →
          ∀ e, uploadToS3 env (effectiveRequest env event).2.1
              (effectiveRequest env event).2.2.1
              (effectiveRequest env event).2.2.2
              (buildTempPaths event.OriginKey).2 = Except.error e →
            failedOutput env event e))) := by
  refine ⟨?_, fun hval => ⟨?_, fun n hdl => ⟨?_, fun u hcp e hup => ?_⟩⟩⟩
  · intro e he
    obtain ⟨tr, hH⟩ :
        ∃ tr, Handler env event = ((buildErrorResult event e, some e), tr) := by
      simp only [Handler, he]
      exact ⟨_, rfl⟩
    unfold failedOutput
    rw [hH]
    exact ⟨rfl, rfl, validateRequest_error_msg he, rfl, rfl, rfl, rfl, rfl⟩
  · intro e hdl
    obtain ⟨tr, hH⟩ :
        ∃ tr, Handler env event = ((buildErrorResult event e, some e), tr) := by
      simp only [Handler, hval, hdl]
      exact ⟨_, rfl⟩
    unfold failedOutput
    rw [hH]
    exact ⟨rfl, rfl, downloadFromS3_error_msg hdl, rfl, rfl, rfl, rfl, rfl⟩
  · intro e hcp
    obtain ⟨tr, hH⟩ :
        ∃ tr, Handler env event = ((buildErrorResult event e, some e), tr) := by
      simp only [Handler, hval, hdl, hcp]
      exact ⟨_, rfl⟩
    unfold failedOutput
    rw [hH]
    exact ⟨rfl, rfl, compressFile_error_msg hcp, rfl, rfl, rfl, rfl, rfl⟩
  · obtain ⟨tr, hH⟩ :
        ∃ tr, Handler env event = ((buildErrorResult event e, some e), tr) := by
      simp only [Handler, hval, hdl, hcp, hup]
      exact ⟨_, rfl⟩
    unfold failedOutput
    rw [hH]
    exact ⟨rfl, rfl, uploadToS3_error_msg hup, rfl, rfl, rfl, rfl, rfl⟩

/-- Witness for C2 at the validation-failure input. -/
theorem handler_failure_contract_witness :
    validateRequest badEvent = Except.error "origin bucket and key required" ∧
      failedOutput okEnv badEvent "origin bucket and key required" :=
  ⟨by decide, (handler_failure_contract okEnv badEvent).1 _ (by decide)⟩

/-- C1 counterexample: with every external operation succeeding, the
four named stages succeed but the result code is the literal `SUCCEED`,
not `SUCCEEDED`; moreover with a failing queue send the same four stages
succeed and the result code is `FAILED`, so their success alone does not
determine the result. -/
theorem handler_success_counterexample :
    (validateRequest fullEvent = Except.ok () ∧
      downloadFromS3 okEnv (effectiveRequest okEnv fullEvent).1
        fullEvent.OriginBucket fullEvent.OriginKey
        (buildTempPaths fullEvent.OriginKey).1 = Except.ok 42 ∧
      (compressFile okEnv (buildTempPaths fullEvent.OriginKey).1
        (buildTempPaths fullEvent.OriginKey).2).1 = Except.ok () ∧
      uploadToS3 okEnv (effectiveRequest okEnv fullEvent).2.1
        (effectiveRequest okEnv fullEvent).2.2.1
        (effectiveRequest okEnv fullEvent).2.2.2
        (buildTempPaths fullEvent.OriginKey).2 = Except.ok 17 ∧
      (Handler okEnv fullEvent).1.1.Result = "SUCCEED" ∧
      "SUCCEED" ≠ "SUCCEEDED") ∧
    (validateRequest minimalEvent = Except.ok () ∧
      downloadFromS3 sendFailEnv (effectiveRequest sendFailEnv minimalEvent).1
        minimalEvent.OriginBucket minimalEvent.OriginKey
        (buildTempPaths minimalEvent.OriginKey).1 = Except.ok 42 ∧
      (compressFile sendFailEnv (buildTempPaths minimalEvent.OriginKey).1
        (buildTempPaths minimalEvent.OriginKey).2).1 = Except.ok () ∧
      uploadToS3 sendFailEnv (effectiveRequest sendFailEnv minimalEvent).2.1
        (effectiveRequest sendFailEnv minimalEvent).2.2.1
        (effectiveRequest sendFailEnv minimalEvent).2.2.2
        (buildTempPaths minimalEvent.OriginKey).2 = Except.ok 17 ∧
      (Handler sendFailEnv minimalEvent).1.1.Result = "FAILED") := by
  decide

/-- C1 (amended): when validation, download, archiving, upload and the
final queue send all succeed, the handler returns the `SUCCEED` result
whose region, bucket and key are the effective target coordinates — the
same coordinates the upload effect wrote the archive to — with no
error. -/
theorem handler_success (env : Env) (event : FileCompressionForm)
    (hval : validateRequest event = Except.ok ())
    (hdl : ∃ n, downloadFromS3 env (effectiveRequest env event).1
      event.OriginBucket event.OriginKey
      (buildTempPaths event.OriginKey).1 = Except.ok n)
    (hcp : (compressFile env (buildTempPaths event.OriginKey).1
      (buildTempPaths event.OriginKey).2).1 = Except.ok ())
    (hup : ∃ n, uploadToS3 env (effectiveRequest env event).2.1
      (effectiveRequest env event).2.2.1 (effectiveRequest env event).2.2.2
      (buildTempPaths event.OriginKey).2 = Except.ok n)
    (hsend : (sendResultToQueue env event.QueueRegion event.QueueUrl
      (successResult env event)).1 = Except.ok ()) :
    (Handler env event).1.1 = successResult env event ∧
    (Handler env event).1.2 = none ∧
    Effect.upload (effectiveRequest env event).2.1
      (effectiveRequest env event).2.2.1 (effectiveRequest env event).2.2.2
      (buildTempPaths event.OriginKey).2 ∈ (Handler env event).2 := by
  obtain ⟨n, hdl⟩ := hdl
  obtain ⟨m, hup⟩ := hup
  obtain ⟨tr, hH, hmem⟩ :
      ∃ tr, Handler env event = ((successResult env event, none), tr) ∧
        Effect.upload (effectiveRequest env event).2.1
          (effectiveRequest env event).2.2.1
          (effectiveRequest env event).2.2.2
          (buildTempPaths event.OriginKey).2 ∈ tr := by
    simp only [Handler, hval, hdl, hcp, hup]
    simp only [successResult] at hsend
    rw [hsend]
    refine ⟨_, rfl, ?_⟩
    simp
  rw [hH]
  exact ⟨rfl, rfl, hmem⟩

/-- Witness for C1 (amended) at the fully specified request and the
all-success environment. -/
theorem handler_success_witness :
    (Handler okEnv fullEvent).1.1 = successResult okEnv fullEvent ∧
      (Handler okEnv fullEvent).1.2 = none ∧
      Effect.upload (effectiveRequest okEnv fullEvent).2.1
        (effectiveRequest okEnv fullEvent).2.2.1
        (effectiveRequest okEnv fullEvent).2.2.2
        (buildTempPaths fullEvent.OriginKey).2 ∈ (Handler okEnv fullEvent).2 :=
  handler_success okEnv fullEvent (by decide) ⟨42, by decide⟩ (by decide)
    ⟨17, by decide⟩ (by decide)

/-- C3: the notification step is not skipped when the queue address is
empty — the handler sends a message with the empty queue URL, and when
that send fails the overall result flips to `FAILED` (while the same
request with a succeeding send yields `SUCCEED`), so the result is not
unaffected. -/
theorem queue_send_not_skipped :
    minimalEvent.QueueUrl = "" ∧
    Effect.sendMsg "" ""
        (jsonOfResult (successResult sendFailEnv minimalEvent)) ∈
      (Handler sendFailEnv minimalEvent).2 ∧
    (Handler sendFailEnv minimalEvent).1.1.Result = "FAILED" ∧
    (Handler sendFailEnv minimalEvent).1.2 = some "invalid queue url" ∧
    (Handler okEnv minimalEvent).1.1.Result = "SUCCEED" := by
  decide

/-- C7 counterexample: a non-zero `7za` exit with captured diagnostic
output `DIAG-OUTPUT-42` produces the error `7za error: exit status 2`,
which does not contain the captured output. -/
theorem compressFile_output_not_carried :
    (toolFailEnv.runTool (sevenZipArgs "/tmp/in.txt" "/tmp/in.7z")).2 =
      "DIAG-OUTPUT-42" ∧
    (compressFile toolFailEnv "/tmp/in.txt" "/tmp/in.7z").1 =
      Except.error "7za error: exit status 2" ∧
    strContains "7za error: exit status 2" "DIAG-OUTPUT-42" = false := by
  decide

/-- C7 (amended): the archive step succeeds exactly when the tool exits
with status zero; a non-zero status yields an archive error wrapping the
exit error (the captured combined output is logged, not carried in the
error); a missing binary is a distinct failure detected before any
execution. -/
theorem compressFile_spec (env : Env) (i o : String) :
    (env.binaryExists = false →
      compressFile env i o = (Except.error "7za binary not found", [])) ∧
    (env.binaryExists = true →
      (((compressFile env i o).1 = Except.ok ()) ↔
        (env.runTool (sevenZipArgs i o)).1 = 0) ∧
      ((env.runTool (sevenZipArgs i o)).1 ≠ 0 →
        compressFile env i o =
          (Except.error
            ("7za error: exit status " ++
              toString (env.runTool (sevenZipArgs i o)).1),
           [Effect.runTool (sevenZipArgs i o)]))) := by
  refine ⟨fun h => by simp [compressFile, h], fun h => ⟨?_, fun hnz => ?_⟩⟩
  · unfold compressFile
    by_cases hz : (env.runTool (sevenZipArgs i o)).1 = 0 <;> simp [h, hz]
  · unfold compressFile
    simp [h, hnz]

/-- Witness for C7 (amended) at the failing-tool environment. -/
theorem compressFile_spec_witness :
    toolFailEnv.binaryExists = true ∧
      compressFile toolFailEnv "/tmp/in.txt" "/tmp/in.7z" =
        (Except.error "7za error: exit status 2",
         [Effect.runTool (sevenZipArgs "/tmp/in.txt" "/tmp/in.7z")]) :=
  ⟨by decide,
    (compressFile_spec toolFailEnv "/tmp/in.txt" "/tmp/in.7z").2 (by decide)
      |>.2 (by decide)⟩

theorem getLast_append_of_getLast {α : Type} {a : α} (l₁ : List α)
    {l₂ : List α} (h : l₂.getLast? = some a) :
    (l₁ ++ l₂).getLast? = some a := by
  rw [List.getLast?_append_of_ne_nil l₁ (fun hn => by simp [hn] at h)]
  exact h

theorem effectiveRequest_rm (env : Env) (rf : String → RemoveResult) :
    effectiveRequest { env with removeFile := rf } = effectiveRequest env :=
  rfl

theorem downloadFromS3_rm (env : Env) (rf : String → RemoveResult) :
    downloadFromS3 { env with removeFile := rf } = downloadFromS3 env :=
  rfl

theorem compressFile_rm (env : Env) (rf : String → RemoveResult) :
    compressFile { env with removeFile := rf } = compressFile env :=
  rfl

theorem uploadToS3_rm (env : Env) (rf : String → RemoveResult) :
    uploadToS3 { env with removeFile := rf } = uploadToS3 env :=
  rfl

theorem deleteFromS3_rm (env : Env) (rf : String → RemoveResult) :
    deleteFromS3 { env with removeFile := rf } = deleteFromS3 env :=
  rfl

theorem sendResultToQueue_rm (env : Env) (rf : String → RemoveResult) :
    sendResultToQueue { env with removeFile := rf } = sendResultToQueue env :=
  rfl

/-- C5 counterexample: the validation-failure exit path performs no
cleanup attempt at all — the `defer` installing `cleanupTemp` is only
reached after validation, so the effect trace of this failing invocation
is empty. -/
theorem cleanup_missing_on_validation_failure :
    validateRequest badEvent =
      Except.error "origin bucket and key required" ∧
    (Handler okEnv badEvent).2 = [] := by
  decide

/-- C5 (amended): on every exit path reached after validation succeeds,
the handler's final action is the cleanup attempt on both temporary
paths, and the outcome of the removals never changes the returned result
or error. -/
theorem cleanup_after_validation (env : Env) (rf : String → RemoveResult)
    (event : FileCompressionForm)
    (hval : validateRequest event = Except.ok ()) :
    (Handler env event).2.getLast? =
      some (Effect.cleanup
        [(buildTempPaths event.OriginKey).1, (buildTempPaths event.OriginKey).2]
        (cleanupTemp env
          [(buildTempPaths event.OriginKey).1,
           (buildTempPaths event.OriginKey).2])) ∧
    (Handler { env with removeFile := rf } event).1 = (Handler env event).1 := by
  constructor
  · simp only [Handler, hval]
    repeat (first
      | rfl
      | exact getLast_append_of_getLast _ rfl
      | apply getLast_append_of_getLast
      | split)
  · simp only [Handler, hval, effectiveRequest_rm, downloadFromS3_rm,
      compressFile_rm, uploadToS3_rm, deleteFromS3_rm, sendResultToQueue_rm]
    repeat (first | rfl | split)

theorem strext {a b : String} (h : a.data = b.data) : a = b := by
  cases a
  cases b
  exact congrArg String.mk h

theorem str_data_append (a b : String) : (a ++ b).data = a.data ++ b.data := by
  cases a
  cases b
  rfl

theorem cleanLoop_comp (rooted : Bool) (dd : Nat) :
    ∀ (l : List Char) (out : List Char), (∀ c ∈ l, c ≠ '/') →
      cleanLoop rooted out true l dd = out ++ l := by
  intro l
  induction l with
  | nil => intro out h; simp [cleanLoop]
  | cons c rest ih =>
    intro out h
    have hc : ¬ c = '/' := h c (by simp)
    rw [cleanLoop]
    · rw [ih _ (fun x hx => h x (by simp [hx]))]
      simp
    · exact fun h2 => hc h2

theorem cleanLoop_boundary (rooted : Bool) (dd : Nat) (out : List Char)
    (c : Char) (rest : List Char)
    (hsf : ∀ x ∈ c :: rest, x ≠ '/')
    (h1 : c :: rest ≠ ['.'])
    (h2 : c :: rest ≠ ['.', '.']) :
    cleanLoop rooted out false (c :: rest) dd =
      (if sepNeeded rooted out.length then out ++ ['/'] else out) ++
        (c :: rest) := by
  have hc : ¬ c = '/' := hsf c (by simp)
  by_cases hcd : c = '.'
  · subst hcd
    rcases rest with _ | ⟨r1, rest1⟩
    · exact absurd rfl h1
    · have hr1 : ¬ r1 = '/' := hsf r1 (by simp)
      by_cases hr1d : r1 = '.'
      · subst hr1d
        rcases rest1 with _ | ⟨r2, rest2⟩
        · exact absurd rfl h2
        · have hr2 : ¬ r2 = '/' := hsf r2 (by simp)
          rw [cleanLoop]
          · rw [cleanLoop_comp rooted dd _ _
              (fun x hx => hsf x (by simp at hx ⊢; tauto))]
            simp
          all_goals (intros; simp_all)
      · rw [cleanLoop]
        · rw [cleanLoop_comp rooted dd _ _
            (fun x hx => hsf x (by simp at hx ⊢; tauto))]
          simp
        all_goals (intros; simp_all)
  · rw [cleanLoop]
    · rw [cleanLoop_comp rooted dd _ _
        (fun x hx => hsf x (by simp at hx ⊢; tauto))]
      simp
    all_goals (intros; simp_all)

theorem join_tmp (n : List Char) (hne : n ≠ []) (hsf : ∀ c ∈ n, c ≠ '/')
    (h1 : n ≠ ['.']) (h2 : n ≠ ['.', '.']) :
    filepathJoin TempDir ⟨n⟩ = ⟨'/' :: 't' :: 'm' :: 'p' :: '/' :: n⟩ := by
  have h0 : filepathJoin TempDir ⟨n⟩ =
      filepathClean ⟨'/' :: 't' :: 'm' :: 'p' :: '/' :: n⟩ := rfl
  rw [h0]
  rcases n with _ | ⟨c, rest⟩
  · exact absurd rfl hne
  · have hout : cleanLoop true ['/'] false
        ('/' :: 't' :: 'm' :: 'p' :: '/' :: c :: rest) 1 =
        '/' :: 't' :: 'm' :: 'p' :: '/' :: c :: rest := by
      rw [show cleanLoop true ['/'] false
          ('/' :: 't' :: 'm' :: 'p' :: '/' :: c :: rest) 1 =
          cleanLoop true ['/', 't', 'm', 'p'] false (c :: rest) 1 by
        simp [cleanLoop, sepNeeded]]
      rw [cleanLoop_boundary true 1 ['/', 't', 'm', 'p'] c rest hsf h1 h2]
      simp [sepNeeded]
    unfold filepathClean
    rw [if_neg (by simp [String.ext_iff])]
    dsimp only
    rw [if_pos (show ('/' :: 't' :: 'm' :: 'p' :: '/' :: c :: rest).head? =
      some '/' from rfl)]
    rw [hout]
    rw [if_neg (by simp)]

theorem filepathBase_shape (s : String) (h : s ≠ "") :
    filepathBase s = "/" ∨
      ((filepathBase s).data ≠ [] ∧ ∀ c ∈ (filepathBase s).data, c ≠ '/') := by
  unfold filepathBase
  rw [if_neg h]
  by_cases hn :
      ((s.data.reverse.dropWhile (fun c => c = '/')).takeWhile
        (fun c => ¬ c = '/')).reverse = (([] : List Char))
  · left
    rw [if_pos hn]
  · right
    rw [if_neg hn]
    refine ⟨by simpa using hn, fun c hc => ?_⟩
    simp only [List.mem_reverse] at hc
    have := List.mem_takeWhile_imp hc
    simpa using this

theorem filepathBase_slashfree (n : List Char) (hne : n ≠ [])
    (hsf : ∀ c ∈ n, c ≠ '/') : filepathBase ⟨n⟩ = ⟨n⟩ := by
  unfold filepathBase
  rw [if_neg (by simp [String.ext_iff, hne])]
  dsimp only
  rcases hrev : n.reverse with _ | ⟨c, t⟩
  · exact absurd (by simpa using hrev) hne
  · have hc : c ≠ '/' := hsf c (by
      have h3 : c ∈ n.reverse := by rw [hrev]; simp
      simpa using h3)
    have hdrop : (c :: t).dropWhile (fun x => x = '/') = c :: t := by
      rw [List.dropWhile_cons]
      simp [hc]
    have htake : (c :: t).takeWhile (fun x => ¬ x = '/') = c :: t := by
      rw [List.takeWhile_eq_self_iff]
      intro x hx
      have hx2 : x ∈ n.reverse := by rw [hrev]; exact hx
      have hx3 : x ∈ n := by simpa using hx2
      simp [hsf x hx3]
    have hback : (c :: t).reverse = n := by rw [← hrev, List.reverse_reverse]
    rw [hdrop, htake, hback]
    rw [if_neg hne]

theorem filepathBase_idem (s : String) :
    filepathBase (filepathBase s) = filepathBase s := by
  by_cases h : s = ""
  · subst h
    decide
  · rcases filepathBase_shape s h with hS | ⟨hne, hsf⟩
    · rw [hS]
      decide
    · have h2 := filepathBase_slashfree (filepathBase s).data hne hsf
      exact h2

theorem filepathExtAux_suffix :
    ∀ (r acc res : List Char), filepathExtAux r acc = some res →
      ∃ pre, r.reverse ++ acc = pre ++ res := by
  intro r
  induction r with
  | nil => intro acc res h; simp [filepathExtAux] at h
  | cons c rest ih =>
    intro acc res h
    unfold filepathExtAux at h
    by_cases hc : c = '/'
    · rw [if_pos hc] at h
      simp at h
    · rw [if_neg hc] at h
      by_cases hd : c = '.'
      · rw [if_pos hd] at h
        simp only [Option.some.injEq] at h
        subst h
        subst hd
        exact ⟨rest.reverse, by simp⟩
      · rw [if_neg hd] at h
        obtain ⟨pre, hp⟩ := ih (c :: acc) res h
        refine ⟨pre, ?_⟩
        rw [List.reverse_cons, List.append_assoc]
        simpa using hp

theorem filepathExt_suffix (s : String) (h : filepathExt s ≠ "") :
    ∃ pre, s.data = pre ++ (filepathExt s).data := by
  rcases haux : filepathExtAux s.data.reverse [] with _ | e
  · exact absurd (by unfold filepathExt; rw [haux]) h
  · obtain ⟨pre, hp⟩ := filepathExtAux_suffix s.data.reverse [] e haux
    rw [List.reverse_reverse, List.append_nil] at hp
    refine ⟨pre, ?_⟩
    unfold filepathExt
    rw [haux]
    exact hp

theorem hasSuffix_of_decomp (s t : String) (pre : List Char)
    (hp : s.data = pre ++ t.data) : stringsHasSuffix s t = true := by
  unfold stringsHasSuffix
  rw [List.isSuffixOf_iff_suffix]
  exact ⟨pre, hp.symm⟩

theorem trimSuffix_data (s : String) (h : filepathExt s ≠ "") :
    (stringsTrimSuffix s (filepathExt s)).data =
      s.data.take (s.data.length - (filepathExt s).data.length) := by
  obtain ⟨pre, hp⟩ := filepathExt_suffix s h
  unfold stringsTrimSuffix
  rw [if_pos (hasSuffix_of_decomp s (filepathExt s) pre hp)]

theorem ext_decomp (s : String) (h : filepathExt s ≠ "") :
    s.data = (stringsTrimSuffix s (filepathExt s)).data ++
      (filepathExt s).data ∧
    stringsTrimSuffix s (filepathExt s) ++ filepathExt s = s := by
  obtain ⟨pre, hp⟩ := filepathExt_suffix s h
  have hdata : (stringsTrimSuffix s (filepathExt s)).data = pre := by
    rw [trimSuffix_data s h, hp]
    have hlen : (pre ++ (filepathExt s).data).length -
        (filepathExt s).data.length = pre.length := by simp
    rw [hlen]
    exact List.take_left pre _
  constructor
  · rw [hdata]
    exact hp
  · apply strext
    rw [str_data_append, hdata]
    exact hp.symm

theorem replaceExtension_no_ext (k e : String) (h : filepathExt k = "") :
    replaceExtension k e = k ++ e := by
  unfold replaceExtension
  dsimp only
  rw [if_pos h]

theorem replaceExtension_ext (k e : String) (h : filepathExt k ≠ "") :
    replaceExtension k e = stringsTrimSuffix k (filepathExt k) ++ e := by
  unfold replaceExtension
  dsimp only
  rw [if_neg h]
  apply strext
  rw [str_data_append, str_data_append, trimSuffix_data k h]

/-- Witness for C5 (amended) at the minimal request, with a removal
function that fails. -/
theorem cleanup_after_validation_witness :
    validateRequest minimalEvent = Except.ok () ∧
      ((Handler okEnv minimalEvent).2.getLast? =
        some (Effect.cleanup
          [(buildTempPaths minimalEvent.OriginKey).1,
           (buildTempPaths minimalEvent.OriginKey).2]
          (cleanupTemp okEnv
            [(buildTempPaths minimalEvent.OriginKey).1,
             (buildTempPaths minimalEvent.OriginKey).2])) ∧
      (Handler { okEnv with removeFile := fun _ => RemoveResult.failed "EPERM" }
          minimalEvent).1 = (Handler okEnv minimalEvent).1) :=
  ⟨by decide,
    cleanup_after_validation okEnv (fun _ => RemoveResult.failed "EPERM")
      minimalEvent (by decide)⟩

/-- C8: the three specified evaluations of `replaceExtension`, and the
general rule — a key whose final path segment has no extension gets the
new extension appended, otherwise the key splits as stem plus final
extension and only that final extension is replaced. -/
theorem replaceExtension_spec :
    replaceExtension "a/b/file.txt" ".7z" = "a/b/file.7z" ∧
    replaceExtension "noext" ".7z" = "noext.7z" ∧
    replaceExtension "multi.part.tar" ".7z" = "multi.part.7z" ∧
    ∀ k e : String,
      (filepathExt k = "" → replaceExtension k e = k ++ e) ∧
      (filepathExt k ≠ "" →
        stringsTrimSuffix k (filepathExt k) ++ filepathExt k = k ∧
        replaceExtension k e = stringsTrimSuffix k (filepathExt k) ++ e) :=
  ⟨by decide, by decide, by decide, fun k e =>
    ⟨replaceExtension_no_ext k e,
      fun h => ⟨(ext_decomp k h).2, replaceExtension_ext k e h⟩⟩⟩

/-- Witness for C8 at the multi-dot key. -/
theorem replaceExtension_spec_witness :
    filepathExt "multi.part.tar" ≠ "" ∧
      (stringsTrimSuffix "multi.part.tar" (filepathExt "multi.part.tar") ++
          filepathExt "multi.part.tar" = "multi.part.tar" ∧
        replaceExtension "multi.part.tar" ".7z" =
          stringsTrimSuffix "multi.part.tar"
            (filepathExt "multi.part.tar") ++ ".7z") :=
  ⟨by decide,
    (replaceExtension_spec.2.2.2 "multi.part.tar" ".7z").2 (by decide)⟩

/-- C9: the derived temporary paths for `folder/photo.png` are
`/tmp/photo.png` and `/tmp/photo.7z`; in general the paths depend only
on the key's basename (any directory prefix is discarded), the input
path being the temp directory joined with the basename and the output
path the temp directory joined with the basename stripped of its final
extension plus the archive extension. -/
theorem buildTempPaths_spec :
    buildTempPaths "folder/photo.png" = ("/tmp/photo.png", "/tmp/photo.7z") ∧
    (∀ key, buildTempPaths key = buildTempPaths (filepathBase key)) ∧
    (∀ key,
      (buildTempPaths key).1 = filepathJoin TempDir (filepathBase key) ∧
      (buildTempPaths key).2 = filepathJoin TempDir
        (stringsTrimSuffix (filepathBase key)
          (filepathExt (filepathBase key)) ++ CompressExtension)) := by
  refine ⟨by decide, fun key => ?_, fun key => ⟨rfl, rfl⟩⟩
  unfold buildTempPaths
  rw [filepathBase_idem]

/-- C10 counterexample: the key `a.7z/` is accepted by validation (it is
non-empty and does not end in `.7z`) yet its derived temporary input and
output paths are both `/tmp/a.7z`. -/
theorem buildTempPaths_collision :
    validateRequest { minimalEvent with OriginKey := "a.7z/" } =
      Except.ok () ∧
    (buildTempPaths "a.7z/").1 = "/tmp/a.7z" ∧
    (buildTempPaths "a.7z/").1 = (buildTempPaths "a.7z/").2 := by
  decide

set_option maxHeartbeats 2000000 in
/-- C10 (amended): for every source key accepted by validation whose
basename does not end in the archive extension — trailing separators can
otherwise hide a `.7z` basename from validation, as in `a.7z/` — the
derived temporary input and output paths are distinct. -/
theorem buildTempPaths_distinct (event : FileCompressionForm)
    (hval : validateRequest event = Except.ok ())
    (hbase : stringsHasSuffix (filepathBase event.OriginKey)
      CompressExtension = false) :
    (buildTempPaths event.OriginKey).1 ≠ (buildTempPaths event.OriginKey).2 := by
  have hk : event.OriginKey ≠ "" := by
    intro hk0
    unfold validateRequest at hval
    rw [if_pos (Or.inr hk0)] at hval
    simp at hval
  rcases filepathBase_shape event.OriginKey hk with hS | ⟨hne, hsf⟩
  · unfold buildTempPaths
    dsimp only
    rw [hS]
    decide
  · by_cases hdot : filepathBase event.OriginKey = "."
    · unfold buildTempPaths
      dsimp only
      rw [hdot]
      decide
    · by_cases hdd : filepathBase event.OriginKey = ".."
      · unfold buildTempPaths
        dsimp only
        rw [hdd]
        decide
      · have hdot' : (filepathBase event.OriginKey).data ≠ ['.'] := by
          intro hx
          exact hdot (strext hx)
        have hdd' : (filepathBase event.OriginKey).data ≠ ['.', '.'] := by
          intro hx
          exact hdd (strext hx)
        have hin : (buildTempPaths event.OriginKey).1 =
            ⟨'/' :: 't' :: 'm' :: 'p' :: '/' ::
              (filepathBase event.OriginKey).data⟩ := by
          show filepathJoin TempDir (filepathBase event.OriginKey) = _
          rw [show filepathBase event.OriginKey =
            (⟨(filepathBase event.OriginKey).data⟩ : String) from rfl]
          exact join_tmp _ hne hsf hdot' hdd'
        by_cases hext : filepathExt (filepathBase event.OriginKey) = ""
        · -- no extension in the basename: the output name appends ".7z"
          have htrim : stringsTrimSuffix (filepathBase event.OriginKey)
              (filepathExt (filepathBase event.OriginKey)) =
              filepathBase event.OriginKey := by
            rw [hext]
            unfold stringsTrimSuffix
            rw [if_pos (hasSuffix_of_decomp _ ""
              (filepathBase event.OriginKey).data (by simp))]
            apply strext
            show (filepathBase event.OriginKey).data.take _ = _
            simp
          have hout : (buildTempPaths event.OriginKey).2 =
              ⟨'/' :: 't' :: 'm' :: 'p' :: '/' ::
                ((filepathBase event.OriginKey).data ++
                  CompressExtension.data)⟩ := by
            show filepathJoin TempDir
              (stringsTrimSuffix (filepathBase event.OriginKey)
                (filepathExt (filepathBase event.OriginKey)) ++
                CompressExtension) = _
            rw [htrim]
            rw [show filepathBase event.OriginKey ++ CompressExtension =
              (⟨(filepathBase event.OriginKey).data ++
                CompressExtension.data⟩ : String) from
              strext (str_data_append _ _)]
            refine join_tmp _ (by simp [CompressExtension]) ?_ ?_ ?_
            · intro c hc
              rcases List.mem_append.mp hc with h1 | h1
              · exact hsf c h1
              · have h1b : c ∈ ['.', '7', 'z'] := h1
                have h2 : c = '.' ∨ c = '7' ∨ c = 'z' := by simpa using h1b
                rcases h2 with h2 | h2 | h2 <;> subst h2 <;> decide
            · intro hx
              have h3 := congrArg List.length hx
              simp only [List.length_append] at h3
              have h4 : CompressExtension.data.length = 3 := rfl
              rw [h4] at h3
              simp at h3
            · intro hx
              have h3 := congrArg List.length hx
              simp only [List.length_append] at h3
              have h4 : CompressExtension.data.length = 3 := rfl
              rw [h4] at h3
              simp at h3
          rw [hin, hout]
          intro heq
          have hd := congrArg String.data heq
          injection hd with _ hd
          injection hd with _ hd
          injection hd with _ hd
          injection hd with _ hd
          injection hd with _ hd
          have hlen := congrArg List.length hd
          simp only [List.length_append] at hlen
          have h4 : CompressExtension.data.length = 3 := rfl
          rw [h4] at hlen
          omega
        · -- the basename has an extension, different from ".7z"
          have h7z : filepathExt (filepathBase event.OriginKey) ≠
              CompressExtension := by
            intro he
            have hdec := (ext_decomp _ hext).1
            rw [he] at hdec
            have := hasSuffix_of_decomp (filepathBase event.OriginKey)
              CompressExtension _ hdec
            rw [hbase] at this
            exact absurd this (by simp)
          have hdec := (ext_decomp _ hext).1
          have hstem : ∀ c ∈ (stringsTrimSuffix (filepathBase event.OriginKey)
              (filepathExt (filepathBase event.OriginKey))).data, c ≠ '/' := by
            intro c hc
            apply hsf
            rw [hdec]
            exact List.mem_append.mpr (Or.inl hc)
          have hout : (buildTempPaths event.OriginKey).2 =
              ⟨'/' :: 't' :: 'm' :: 'p' :: '/' ::
                ((stringsTrimSuffix (filepathBase event.OriginKey)
                  (filepathExt (filepathBase event.OriginKey))).data ++
                  CompressExtension.data)⟩ := by
            show filepathJoin TempDir
              (stringsTrimSuffix (filepathBase event.OriginKey)
                (filepathExt (filepathBase event.OriginKey)) ++
                CompressExtension) = _
            rw [show stringsTrimSuffix (filepathBase event.OriginKey)
                (filepathExt (filepathBase event.OriginKey)) ++
                CompressExtension =
              (⟨(stringsTrimSuffix (filepathBase event.OriginKey)
                (filepathExt (filepathBase event.OriginKey))).data ++
                CompressExtension.data⟩ : String) from
              strext (str_data_append _ _)]
            refine join_tmp _ (by simp [CompressExtension]) ?_ ?_ ?_
            · intro c hc
              rcases List.mem_append.mp hc with h1 | h1
              · exact hstem c h1
              · have h1b : c ∈ ['.', '7', 'z'] := h1
                have h2 : c = '.' ∨ c = '7' ∨ c = 'z' := by simpa using h1b
                rcases h2 with h2 | h2 | h2 <;> subst h2 <;> decide
            · intro hx
              have h3 := congrArg List.length hx
              simp only [List.length_append] at h3
              have h4 : CompressExtension.data.length = 3 := rfl
              rw [h4] at h3
              simp at h3
            · intro hx
              have h3 := congrArg List.length hx
              simp only [List.length_append] at h3
              have h4 : CompressExtension.data.length = 3 := rfl
              rw [h4] at h3
              simp at h3
          rw [hin, hout]
          intro heq
          have hd := congrArg String.data heq
          injection hd with _ hd
          injection hd with _ hd
          injection hd with _ hd
          injection hd with _ hd
          injection hd with _ hd
          rw [hdec] at hd
          have h5 := List.append_cancel_left hd
          exact h7z (strext h5)

/-- Witness for C10 (amended): a plain key with a non-archive extension
yields distinct temporary paths. -/
theorem buildTempPaths_distinct_witness :
    validateRequest minimalEvent = Except.ok () ∧
      stringsHasSuffix (filepathBase minimalEvent.OriginKey)
        CompressExtension = false ∧
      (buildTempPaths minimalEvent.OriginKey).1 ≠
        (buildTempPaths minimalEvent.OriginKey).2 :=
  ⟨by decide, by decide,
    buildTempPaths_distinct minimalEvent (by decide) (by decide)⟩

end FileCompress
